import Mathlib

set_option maxHeartbeats 1000000

namespace TPK

/-!
Shallow embedding of the terraform-provider-kubernetes sources.

Strings are modelled as Lean `String` / `List Char`.  Go scans byte-wise,
but every needle the code searches for (`'/'`, `'#'`, `'?'`, `'@'`, `':'`,
`']'`, `'%'`, `"kubernetes.io"`, ...) is pure ASCII, and in UTF-8 an ASCII
byte only ever occurs as a standalone code point, so char-level scanning
coincides with Go's byte-level scanning for everything modelled here.
-/

/-- Split at the first occurrence of `sep`: the prefix before it and, when
`sep` occurs, the remainder after it (Go `strings.Cut` / `split(s, sep, true)`). -/
def cutAtFirst (sep : Char) : List Char → List Char × Option (List Char)
  | [] => ([], none)
  | c :: rest =>
    if c = sep then ([], some rest)
    else
      let r := cutAtFirst sep rest
      (c :: r.1, r.2)

/-- Split at the last occurrence of `sep` (Go `strings.LastIndex` with a
one-char separator): `some (before, after)` with the separator removed. -/
def splitAtLast (l : List Char) (sep : Char) : Option (List Char × List Char) :=
  match cutAtFirst sep l.reverse with
  | (_, none) => none
  | (revAfter, some revBefore) => some (revBefore.reverse, revAfter.reverse)

/-- Split at the first occurrence of the substring `pat`
(Go `strings.Index`): `some (before, fromPat)` where `fromPat` still starts
with `pat`. -/
def cutAtFirstSub (pat : List Char) : List Char → Option (List Char × List Char)
  | [] => if pat.isPrefixOf ([] : List Char) then some ([], []) else none
  | c :: rest =>
    if pat.isPrefixOf (c :: rest) then some ([], c :: rest)
    else (cutAtFirstSub pat rest).map (fun p => (c :: p.1, p.2))

/-- Go `strings.Split` with a one-character separator. -/
def goSplit (sep : Char) : List Char → List (List Char)
  | [] => [[]]
  | c :: rest =>
    if c = sep then [] :: goSplit sep rest
    else
      match goSplit sep rest with
      | [] => [[c]]
      | h :: t => (c :: h) :: t

/-- Go `strings.HasSuffix`. -/
def goHasSuffix (s suffix : List Char) : Bool := suffix.isSuffixOf s

/-- Go `strings.Contains`: `sub` occurs as a contiguous substring of `s`. -/
def goContains : List Char → List Char → Bool
  | s@([]), sub => sub.isPrefixOf s
  | s@(_ :: rest), sub => sub.isPrefixOf s || goContains rest sub

/-! ## Model of Go `net/url` parsing, as used by `IsInternalKey`

`IsInternalKey` calls `url.Parse("//" + annotationKey)` and then
`u.Hostname()`.  The functions below model the pieces of `net/url` that are
reachable from such an input (the raw URL always starts with `"//"`, so the
scheme is always empty and the path, when present, always starts with `'/'`).
-/

/-- Hex digit test (Go `net/url` `ishex`). -/
def isHexChar (c : Char) : Bool :=
  (('0' ≤ c) && (c ≤ '9')) || (('a' ≤ c) && (c ≤ 'f')) || (('A' ≤ c) && (c ≤ 'F'))

/-- Hex digit value (Go `net/url` `unhex`). -/
def unhexVal (c : Char) : Nat :=
  if ('0' ≤ c) && (c ≤ '9') then c.toNat - '0'.toNat
  else if ('a' ≤ c) && (c ≤ 'f') then c.toNat - 'a'.toNat + 10
  else if ('A' ≤ c) && (c ≤ 'F') then c.toNat - 'A'.toNat + 10
  else 0

def isAlphaNumChar (c : Char) : Bool :=
  (('A' ≤ c) && (c ≤ 'Z')) || (('a' ≤ c) && (c ≤ 'z')) || (('0' ≤ c) && (c ≤ '9'))

/-- Characters Go's `shouldEscape` leaves unescaped in a host, besides
alphanumerics: `-._~` plus the host-allowed sub-delims. -/
def hostAllowedPunct : List Char :=
  ['-', '.', '_', '~', '!', '$', '&', '\'', '(', ')', '*', '+', ',', ';', '=',
   ':', '[', ']', '<', '>', '"']

/-- Go `shouldEscape(c, encodeHost)` (also `encodeZone`: same table). -/
def shouldEscapeHost (c : Char) : Bool :=
  !(isAlphaNumChar c || hostAllowedPunct.contains c)

/-- `shouldEscape` applied to a decoded byte value (used for zone escapes). -/
def shouldEscapeHostByte (v : Nat) : Bool := shouldEscapeHost (Char.ofNat v)

/-- Go `net/url` `unescape(s, encodeHost)`: validates characters and `%`
escapes of a host and returns the decoded host.  In a host a `%` escape must
be `%25` or denote a non-ASCII byte (first hex digit `≥ 8`); an unescaped
ASCII character must be in the allowed host set. -/
def unescapeHost : List Char → Option (List Char)
  | [] => some []
  | '%' :: rest =>
    match rest with
    | a :: b :: rest2 =>
      if isHexChar a && isHexChar b then
        if unhexVal a < 8 && !(a = '2' && b = '5') then none
        else (unescapeHost rest2).map (fun t => Char.ofNat (16 * unhexVal a + unhexVal b) :: t)
      else none
    | _ => none
  | c :: rest =>
    if c.toNat < 0x80 && shouldEscapeHost c then none
    else (unescapeHost rest).map (fun t => c :: t)

/-- Go `net/url` `unescape(s, encodeZone)`: a zone `%` escape must be `%25`,
`%20`, or decode to a host-allowed character. -/
def unescapeZone : List Char → Option (List Char)
  | [] => some []
  | '%' :: rest =>
    match rest with
    | a :: b :: rest2 =>
      if isHexChar a && isHexChar b then
        let v := 16 * unhexVal a + unhexVal b
        if !(a = '2' && b = '5') && v ≠ 32 && shouldEscapeHostByte v then none
        else (unescapeZone rest2).map (fun t => Char.ofNat v :: t)
      else none
    | _ => none
  | c :: rest =>
    if c.toNat < 0x80 && shouldEscapeHost c then none
    else (unescapeZone rest).map (fun t => c :: t)

/-- Validity of `%` escapes in modes whose `unescape` only checks the hex
digits (path, fragment, username/password). -/
def validEscapes : List Char → Bool
  | [] => true
  | '%' :: rest =>
    match rest with
    | a :: b :: rest2 => isHexChar a && isHexChar b && validEscapes rest2
    | _ => false
  | _ :: rest => validEscapes rest

/-- Go `net/url` `validOptionalPort`. -/
def validOptionalPort : List Char → Bool
  | [] => true
  | ':' :: rest => rest.all (fun c => ('0' ≤ c) && (c ≤ '9'))
  | _ => false

/-- Go `net/url` `validUserinfo`. -/
def validUserinfoChars (s : List Char) : Bool :=
  s.all (fun c => isAlphaNumChar c ||
    ['-', '.', '_', ':', '~', '!', '$', '&', '\'', '(', ')', '*', '+', ',',
     ';', '=', '%', '@'].contains c)

/-- Go `net/url` `parseHost`: validates the optional port and the escapes
(including the RFC 6874 `%25` zone case inside brackets) and returns the
decoded host. -/
def parseHost (hostPart : List Char) : Option (List Char) :=
  match hostPart with
  | '[' :: _ =>
    match splitAtLast hostPart ']' with
    | none => none
    | some (beforeJ, afterJ) =>
      if !validOptionalPort afterJ then none
      else
        match cutAtFirstSub ['%', '2', '5'] beforeJ with
        | some (z1, z2) =>
          match unescapeHost z1, unescapeZone z2, unescapeHost (']' :: afterJ) with
          | some h1, some h2, some h3 => some (h1 ++ h2 ++ h3)
          | _, _, _ => none
        | none => unescapeHost hostPart
  | _ =>
    let portOk :=
      match splitAtLast hostPart ':' with
      | some (_, afterC) => validOptionalPort (':' :: afterC)
      | none => true
    if !portOk then none else unescapeHost hostPart

/-- Go `net/url` `parseAuthority`: split the userinfo at the last `'@'`,
parse the host, and validate the userinfo. -/
def parseAuthority (authority : List Char) : Option (List Char) :=
  match splitAtLast authority '@' with
  | none => parseHost authority
  | some (userinfo, hostPart) =>
    match parseHost hostPart with
    | none => none
    | some host =>
      if !validUserinfoChars userinfo then none
      else if userinfo.contains ':' then
        let cut := cutAtFirst ':' userinfo
        let pw := cut.2.getD []
        if validEscapes cut.1 && validEscapes pw then some host else none
      else if validEscapes userinfo then some host else none

/-- Go `(*URL).Hostname` via `splitHostPort`: strip a valid port suffix,
then strip surrounding brackets. -/
def hostnameFromHost (host : List Char) : List Char :=
  let h1 :=
    match splitAtLast host ':' with
    | some (before, after) => if validOptionalPort (':' :: after) then before else host
    | none => host
  match h1 with
  | '[' :: rest => if rest.getLast? = some ']' then rest.dropLast else h1
  | _ => h1

/-- Go `net/url` `stringContainsCTLByte`: an ASCII control byte (below
`0x20`, or `0x7f`) occurs in the string.  Go scans bytes, but every byte of
a multi-byte UTF-8 code point is `≥ 0x80`, so the char-level scan
coincides. -/
def containsCTLChar (s : List Char) : Bool :=
  s.any (fun c => c.toNat < 0x20 || c.toNat == 0x7f)

/-- Go `url.Parse(raw).Hostname()` for a raw URL of the form `"//" + key`:
`none` models a parse error.  `parse` first rejects any control byte in the
pre-fragment URL (`stringContainsCTLByte`); the query is then cut off
unvalidated (the `ForceQuery` special case in `parse` cuts at the same
place), the path and fragment only have their `%` escapes validated, and
the authority is parsed by `parseAuthority` above.  An input not starting
with `"//"` cannot occur at the call site. -/
def goUrlParseHostname (raw : List Char) : Option (List Char) :=
  let fragCut := cutAtFirst '#' raw
  let hostRes :=
    if containsCTLChar fragCut.1 then none
    else
    match (cutAtFirst '?' fragCut.1).1 with
    | '/' :: '/' :: t =>
      if t = [] then some (hostnameFromHost [])
      else
        let authCut := cutAtFirst '/' t
        let pathRest : List Char :=
          match authCut.2 with
          | some a => '/' :: a
          | none => []
        match parseAuthority authCut.1 with
        | none => none
        | some host => if validEscapes pathRest then some (hostnameFromHost host) else none
    | _ => none
  match hostRes with
  | none => none
  | some h =>
    match fragCut.2 with
    | some f => if f = [] then some h else if validEscapes f then some h else none
    | none => some h

/-! ## The `structures` package -/

/-- Model of the (exact-type) interface values carried by a Kubernetes
resource map: Go `int`, Go `string`, or any other dynamic type. -/
inductive ResourceVal where
  | int (n : Int)
  | str (s : String)
  | other
deriving DecidableEq

/-- Abstraction of `resource.Quantity`: built either by
`resource.NewQuantity(int64(v), resource.DecimalExponent)` or by a
successful `resource.ParseQuantity`. -/
inductive Quantity where
  | ofInt (n : Int)
  | parsed (s : String)
deriving DecidableEq

/-- `IdParts`: split the ID on `"/"` and require exactly two parts. -/
def IdParts (id : String) : Except String (String × String) :=
  match goSplit '/' id.toList with
  | [a, b] => .ok (⟨a⟩, ⟨b⟩)
  | _ => .error ("Unexpected ID format (" ++ id ++ "), expected namespace/name.")

/-- `metav1.ObjectMeta`, restricted to the fields this code reads.  The Go
string maps (`Annotations`, `Labels`) are modelled as association lists with
the understanding that a Go map has pairwise-distinct keys; no claim below
depends on key order or on distinctness. -/
structure ObjectMeta where
  annotations : List (String × String) := []
  labels : List (String × String) := []
  generateName : String := ""
  name : String := ""
  namespace_ : String := ""
  resourceVersion : String := ""
  uid : String := ""
  generation : Int := 0
deriving DecidableEq

/-- `BuildId`. -/
def BuildId (meta : ObjectMeta) : String :=
  meta.namespace_ ++ "/" ++ meta.name

/-- `ExpandStringSlice`: a `nil` element (the Terraform parser turns empty
strings in lists into `nil`) becomes `""`; any other element is asserted to
`string`, modelled by `some`. -/
def ExpandStringSlice : List (Option String) → List String
  | [] => []
  | none :: rest => "" :: ExpandStringSlice rest
  | some v :: rest => v :: ExpandStringSlice rest

/-- `IsKeyInMap`: linear scan over the keys of the config map `d`
(a `nil` Go map and an empty one behave identically and are both `[]`). -/
def IsKeyInMap (key : String) (d : List String) : Bool :=
  d.any (fun k => k == key)

/-- `IsInternalKey`: parse `"//" + annotationKey` as a URL; on error the key
is not internal; the hostnames `app.kubernetes.io` and
`service.beta.kubernetes.io` are user keys; any other hostname suffixed
`kubernetes.io` is internal; finally a key containing
`deprecated.daemonset.template.generation` is internal. -/
def IsInternalKey (annotationKey : String) : Bool :=
  match goUrlParseHostname ('/' :: '/' :: annotationKey.toList) with
  | none => false
  | some host =>
    if host = "app.kubernetes.io".toList then false
    else if host = "service.beta.kubernetes.io".toList then false
    else if goHasSuffix host "kubernetes.io".toList then true
    else goContains annotationKey.toList "deprecated.daemonset.template.generation".toList

/-- `ignoreKey`: whether some expression of the slice matches the key.
`matchString e k` abstracts `ok, _ := regexp.MatchString(e, k)` from the Go
standard library (a pattern that fails to compile matches nothing). -/
def ignoreKey (matchString : String → String → Bool) (key : String)
    (expressions : List String) : Bool :=
  expressions.any (fun e => matchString e key)

/-- `removeInternalKeys`: delete from `m` every internal key that the user
did not configure in `d`.  The Go code deletes from the map while ranging
over it; as the predicate depends only on the key, this is the filter below
(up to the irrelevant key order). -/
def removeInternalKeys (m : List (String × String)) (d : List String) :
    List (String × String) :=
  m.filter (fun kv => !(IsInternalKey kv.1 && !IsKeyInMap kv.1 d))

/-- `removeKeys`: delete from `m` every key matched by the ignore
expressions that the user did not configure in `d`. -/
def removeKeys (matchString : String → String → Bool)
    (m : List (String × String)) (d : List String)
    (ignoreKubernetesMetadataKeys : List String) : List (String × String) :=
  m.filter (fun kv =>
    !(ignoreKey matchString kv.1 ignoreKubernetesMetadataKeys && !IsKeyInMap kv.1 d))

/-- The `ignore_annotations` / `ignore_labels` provider config value:
`d.Get(...)` yields a `[]interface{}` (then expanded) or the type assertion
fails and the ignore list stays `nil`. -/
def ignoreListOf : Option (List (Option String)) → List String
  | some v => ExpandStringSlice v
  | none => []

/-- The flattened metadata map built by `FlattenMetadata` (the single map in
the returned one-element slice).  `generate_name` and `namespace` are only
present when non-empty. -/
structure FlattenedMetadata where
  annotations : List (String × String)
  generateName : Option String
  labels : List (String × String)
  name : String
  resourceVersion : String
  uid : String
  generation : Int
  namespace_ : Option String
deriving DecidableEq

/-- `FlattenMetadata`.  `configAnnotations` / `configLabels` are the key
sets of `d.Get(prefix + "metadata.0.annotations")` / `...labels` (only keys
are ever read from them); `ignoreAnnotationsRaw` / `ignoreLabelsRaw` are the
provider-level `ignore_annotations` / `ignore_labels` config;
`matchString` abstracts `regexp.MatchString`. -/
def FlattenMetadata (matchString : String → String → Bool) (meta : ObjectMeta)
    (configAnnotations configLabels : List String)
    (ignoreAnnotationsRaw ignoreLabelsRaw : Option (List (Option String))) :
    FlattenedMetadata :=
  let ignoreAnnotations := ignoreListOf ignoreAnnotationsRaw
  let annotations := removeInternalKeys meta.annotations configAnnotations
  let ignoreLabels := ignoreListOf ignoreLabelsRaw
  let labels := removeInternalKeys meta.labels configLabels
  { annotations := removeKeys matchString annotations configAnnotations ignoreAnnotations
    generateName := if meta.generateName ≠ "" then some meta.generateName else none
    labels := removeKeys matchString labels configLabels ignoreLabels
    name := meta.name
    resourceVersion := meta.resourceVersion
    uid := meta.uid
    generation := meta.generation
    namespace_ := if meta.namespace_ ≠ "" then some meta.namespace_ else none }

/-- The metadata block map fed to `ExpandMetadata` (element `0` of the
`d.Get("metadata")` list): each field is `some` exactly when the key is
present with the schema-given dynamic type (`annotations`/`labels` maps of
strings, the rest strings). -/
structure MetadataInput where
  annotations : Option (List (String × String)) := none
  labels : Option (List (String × String)) := none
  generate_name : Option String := none
  name : Option String := none
  namespace_ : Option String := none

/-- `ExpandMetadata` (the `structures` version; the copy used by the default
service account resource is identical).  An empty input list yields the zero
`ObjectMeta`; `annotations`/`labels` are only taken when present and
non-empty. -/
def ExpandMetadata (l : List MetadataInput) : ObjectMeta :=
  match l with
  | [] => {}
  | m :: _ =>
    { annotations := match m.annotations with
        | some v => if v.length > 0 then v else []
        | none => []
      labels := match m.labels with
        | some v => if v.length > 0 then v else []
        | none => []
      generateName := m.generate_name.getD ""
      name := m.name.getD ""
      namespace_ := m.namespace_.getD "" }

/-! ## Resource lists and `ExpandLimitRangeSpec` -/

/-- `ExpandMapToResourceList`, parameterised by
`parseQuantity : String → Option Quantity`, the abstraction of the library
function `resource.ParseQuantity` (`none` models a parse error).  A Go `int`
value becomes `resource.NewQuantity(int64(v), resource.DecimalExponent)`;
a Go `string` is parsed; any other dynamic type is an error.  Go map
iteration order only affects which error is reported, never whether one is. -/
def ExpandMapToResourceList (parseQuantity : String → Option Quantity) :
    List (String × ResourceVal) → Except String (List (String × Quantity))
  | [] => .ok []
  | (k, v) :: rest =>
    match v with
    | .int n =>
      match ExpandMapToResourceList parseQuantity rest with
      | .ok out => .ok ((k, Quantity.ofInt n) :: out)
      | .error e => .error e
    | .str s =>
      match parseQuantity s with
      | some q =>
        match ExpandMapToResourceList parseQuantity rest with
        | .ok out => .ok ((k, q) :: out)
        | .error e => .error e
      | none => .error ("unable to parse quantity " ++ s)
    | .other => .error "Unexpected value type"

/-- `api.LimitRangeItem` (fields this code writes). -/
structure LimitRangeItem where
  type_ : String := ""
  default_ : List (String × Quantity) := []
  defaultRequest : List (String × Quantity) := []
  max : List (String × Quantity) := []
  maxLimitRequestRatio : List (String × Quantity) := []
  min : List (String × Quantity) := []
deriving DecidableEq

/-- `api.LimitRangeSpec`. -/
structure LimitRangeSpec where
  limits : List LimitRangeItem := []
deriving DecidableEq

/-- One element of the `"limit"` list fed to `ExpandLimitRangeSpec`: each
field is `some` exactly when the key is present in the map (with its
schema-given dynamic type: `type` a string, the rest maps). -/
structure LimitItemInput where
  type_ : Option String := none
  default_request : Option (List (String × ResourceVal)) := none
  default_ : Option (List (String × ResourceVal)) := none
  max : Option (List (String × ResourceVal)) := none
  maxLimitRequestRatio : Option (List (String × ResourceVal)) := none
  min : Option (List (String × ResourceVal)) := none

/-- The spec map fed to `ExpandLimitRangeSpec` (element `0` of its input
list): `limit` is `some` exactly when the `"limit"` key is present and is a
`[]interface{}`. -/
structure LimitRangeSpecInput where
  limit : Option (List LimitItemInput) := none

/-- The body of the `ExpandLimitRangeSpec` loop for one entry at index `i`:
`type` is read first; a `default_request` on a `Pod`-type entry is an error
for a new resource and is skipped otherwise; then `default`, `max`,
`max_limit_request_ratio` and `min` are expanded in that order. -/
def expandLimitRangeItem (parseQuantity : String → Option Quantity)
    (isNew : Bool) (i : Nat) (limit : LimitItemInput) :
    Except String LimitRangeItem :=
  match ((match limit.default_request with
          | some drm =>
            if limit.type_.getD "" = "Pod" && drm.length > 0 then
              if isNew then
                Except.error ("limit." ++ toString i ++
                  ".default_request cannot be set for Pod limit")
              else Except.ok []
            else ExpandMapToResourceList parseQuantity drm
          | none => Except.ok []) :
         Except String (List (String × Quantity))) with
  | .error e => .error e
  | .ok dr =>
    match (match limit.default_ with
           | some m => ExpandMapToResourceList parseQuantity m
           | none => .ok []) with
    | .error e => .error e
    | .ok df =>
      match (match limit.max with
             | some m => ExpandMapToResourceList parseQuantity m
             | none => .ok []) with
      | .error e => .error e
      | .ok mx =>
        match (match limit.maxLimitRequestRatio with
               | some m => ExpandMapToResourceList parseQuantity m
               | none => .ok []) with
        | .error e => .error e
        | .ok ratio =>
          match (match limit.min with
                 | some m => ExpandMapToResourceList parseQuantity m
                 | none => .ok []) with
          | .error e => .error e
          | .ok mn => .ok (LimitRangeItem.mk (limit.type_.getD "") df dr mx ratio mn)

/-- The `ExpandLimitRangeSpec` loop over the `"limit"` entries, starting at
index `i`. -/
def expandLimitRangeItems (parseQuantity : String → Option Quantity)
    (isNew : Bool) (i : Nat) :
    List LimitItemInput → Except String (List LimitRangeItem)
  | [] => .ok []
  | l :: rest =>
    match expandLimitRangeItem parseQuantity isNew i l with
    | .error e => .error e
    | .ok item =>
      match expandLimitRangeItems parseQuantity isNew (i + 1) rest with
      | .error e => .error e
      | .ok items => .ok (item :: items)

/-- `ExpandLimitRangeSpec`: an empty input list or a `nil` first element
yields the zero spec; so does an absent (or non-list) `"limit"` key. -/
def ExpandLimitRangeSpec (parseQuantity : String → Option Quantity)
    (s : List (Option LimitRangeSpecInput)) (isNew : Bool) :
    Except String LimitRangeSpec :=
  match s with
  | [] => .ok {}
  | none :: _ => .ok {}
  | some m :: _ =>
    match m.limit with
    | some limits =>
      match expandLimitRangeItems parseQuantity isNew 0 limits with
      | .error e => .error e
      | .ok items => .ok { limits := items }
    | none => .ok {}

/-! ## Node selector terms (`kubernetes/core/v1/structures.go`)

The flatten side produces `map[string]interface{}` values whose dynamic
types matter to the expand side's type assertions, so the generic attribute
representation is embedded as an explicit dynamic-value type. -/

/-- `corev1.NodeSelectorRequirement`. -/
structure NodeSelectorRequirement where
  key : String := ""
  operator : String := ""
  values : List String := []
deriving DecidableEq

/-- `corev1.NodeSelectorTerm`. -/
structure NodeSelectorTerm where
  matchExpressions : List NodeSelectorRequirement := []
  matchFields : List NodeSelectorRequirement := []
deriving DecidableEq

/-- A Go `interface{}` value as used by this flatten/expand layer.  The
constructors record the exact dynamic type, because Go type assertions
distinguish e.g. `[]interface{}` from `[]map[string]interface{}`.
`strSet` models a `*schema.Set` of strings built with `schema.HashString`
(the library's hash ordering and deduplication are not modelled; no claim
depends on them). -/
inductive GoVal where
  | vnil
  | str (s : String)
  | strSet (elems : List String)
  | ifaceList (l : List GoVal)
  | mapList (l : List (List (String × GoVal)))
  | mapVal (m : List (String × GoVal))

/-- `flattenNodeSelectorRequirementList`: note the Go return type is
`[]map[string]interface{}` (not `[]interface{}`). -/
def flattenNodeSelectorRequirementList (l : List NodeSelectorRequirement) :
    List (List (String × GoVal)) :=
  l.map (fun v =>
    [("key", GoVal.str v.key),
     ("values", GoVal.strSet v.values),
     ("operator", GoVal.str v.operator)])

/-- `flattenNodeSelectorTerm`: a one-element list holding the attribute map;
`match_expressions` / `match_fields` are only present when non-empty. -/
def flattenNodeSelectorTerm (t : NodeSelectorTerm) : List GoVal :=
  let att₁ : List (String × GoVal) :=
    if t.matchExpressions.length > 0 then
      [("match_expressions", GoVal.mapList
          (flattenNodeSelectorRequirementList t.matchExpressions))]
    else []
  let att₂ : List (String × GoVal) :=
    if t.matchFields.length > 0 then
      [("match_fields", GoVal.mapList
          (flattenNodeSelectorRequirementList t.matchFields))]
    else []
  [GoVal.mapVal (att₁ ++ att₂)]

/-- `flattenNodeSelectorTerms`: element `0` of each flattened term. -/
def flattenNodeSelectorTerms (l : List NodeSelectorTerm) : List GoVal :=
  l.map (fun n => (flattenNodeSelectorTerm n).headD GoVal.vnil)

/-- `expandNodeSelectorRequirementList`: each element is asserted to
`map[string]interface{}`, `key`/`operator` to `string` and `values` to
`*schema.Set`; `none` models the run-time panic of a failed assertion. -/
def expandNodeSelectorRequirementList (l : List GoVal) :
    Option (List NodeSelectorRequirement) :=
  l.mapM (fun c =>
    match c with
    | .mapVal p =>
      match p.lookup "key", p.lookup "operator", p.lookup "values" with
      | some (.str k), some (.str op), some (.strSet vs) =>
        some { key := k, operator := op,
               values := ExpandStringSlice (vs.map some) }
      | _, _, _ => none
    | _ => none)

/-- `expandNodeSelectorTerm`: an empty list or `nil` first element yields
the zero term; otherwise the first element is asserted to
`map[string]interface{}` (`none` models the panic), and
`match_expressions` / `match_fields` are taken only when the value is a
non-empty `[]interface{}`. -/
def expandNodeSelectorTerm (l : List GoVal) : Option NodeSelectorTerm :=
  match l with
  | [] => some {}
  | GoVal.vnil :: _ => some {}
  | GoVal.mapVal m :: _ => do
    let exprs ←
      match m.lookup "match_expressions" with
      | some (.ifaceList v) =>
        if v.length > 0 then expandNodeSelectorRequirementList v
        else pure []
      | _ => pure []
    let fields ←
      match m.lookup "match_fields" with
      | some (.ifaceList v) =>
        if v.length > 0 then expandNodeSelectorRequirementList v
        else pure []
      | _ => pure []
    pure { matchExpressions := exprs, matchFields := fields }
  | _ :: _ => none

/-- `expandNodeSelectorTerms`: an empty list or `nil` first element yields
the empty slice; otherwise each element is expanded as a singleton list. -/
def expandNodeSelectorTerms (l : List GoVal) : Option (List NodeSelectorTerm) :=
  match l with
  | [] => some []
  | GoVal.vnil :: _ => some []
  | _ => l.mapM (fun n => expandNodeSelectorTerm [n])

/-! ## Default service account create: the retry closure -/

/-- Abstraction of the Kubernetes API error returned by the Get:
`notFound` is the value of `errors.IsNotFound(err)`. -/
structure K8sError where
  notFound : Bool
deriving DecidableEq

/-- The `*resource.RetryError` returned by the retry closure: `retryable`
keeps `resource.RetryContext` looping, `nonRetryable` ends the loop with the
error, `done` (the `nil` return) ends the loop without error. -/
inductive RetryVerdict where
  | retryable (e : K8sError)
  | nonRetryable (e : K8sError)
  | done
deriving DecidableEq

/-- The closure passed to `resource.RetryContext` in
`resourceKubernetesDefaultServiceAccountCreate`, as a function of the
outcome of `conn.CoreV1().ServiceAccounts(ns).Get(...)`. -/
def defaultServiceAccountCreateRetryFn (getRes : Except K8sError Unit) :
    RetryVerdict :=
  match getRes with
  | .error e => if e.notFound then .retryable e else .nonRetryable e
  | .ok _ => .done

/-! ## `dataSourceKubernetesNamespaceRead` -/

/-- `v1.NamespaceSpec` (the field this code reads). -/
structure NamespaceSpec where
  finalizers : List String := []

/-- A `v1.Namespace` as returned by the Get. -/
structure KNamespace where
  objectMeta : ObjectMeta := {}
  spec : NamespaceSpec := {}

/-- `flattenNamespaceSpec`. -/
def flattenNamespaceSpec (in_ : Option NamespaceSpec) : List (List (String × List String)) :=
  match in_ with
  | none => []
  | some s =>
    if s.finalizers.length = 0 then []
    else [[("finalizers", s.finalizers)]]

/-- The environment of one run of `dataSourceKubernetesNamespaceRead`: the
outcome of obtaining the main clientset, of the namespace Get, and of the
two `d.Set` calls (the SDK reports each as an error or success). -/
structure NamespaceReadEnv where
  mainClientset : Except String Unit
  getNamespace : Except String KNamespace
  setMetadataErr : Option String
  setSpecErr : Option String

/-- The observable result of one run: the resource ID (if `d.SetId` was
reached) and the error diagnostics (`none` models nil diagnostics). -/
structure NamespaceReadResult where
  id : Option String
  diags : Option String
deriving DecidableEq

/-- `dataSourceKubernetesNamespaceRead`: obtain the clientset, expand the
metadata, set the ID to the metadata name, Get the namespace, then set
`metadata` and `spec`, returning error diagnostics at the first failure. -/
def dataSourceKubernetesNamespaceRead (env : NamespaceReadEnv)
    (metadataIn : List MetadataInput) : NamespaceReadResult :=
  match env.mainClientset with
  | .error e => { id := none, diags := some e }
  | .ok _ =>
    let metadata := ExpandMetadata metadataIn
    let theId := some metadata.name
    match env.getNamespace with
    | .error e => { id := theId, diags := some e }
    | .ok _ =>
      match env.setMetadataErr with
      | some e => { id := theId, diags := some e }
      | none =>
        match env.setSpecErr with
        | some e => { id := theId, diags := some e }
        | none => { id := theId, diags := none }

/-- The per-entry facts guaranteed by a successful non-new expansion of one
limit entry. -/
def limitItemSpec (pq : String → Option Quantity) (it : LimitItemInput)
    (o : LimitRangeItem) : Prop :=
  (it.type_.getD "" = "Pod" → ∀ drm, it.default_request = some drm → drm ≠ [] →
      o.defaultRequest = [])
  ∧ (∀ dm, it.default_ = some dm → ExpandMapToResourceList pq dm = .ok o.default_)
  ∧ (∀ dm, it.max = some dm → ExpandMapToResourceList pq dm = .ok o.max)
  ∧ (∀ dm, it.maxLimitRequestRatio = some dm →
      ExpandMapToResourceList pq dm = .ok o.maxLimitRequestRatio)
  ∧ (∀ dm, it.min = some dm → ExpandMapToResourceList pq dm = .ok o.min)

/-! ## Helper lemmas -/

theorem goSplit_ne_nil (sep : Char) (s : List Char) : goSplit sep s ≠ [] := by
  cases s with
  | nil => simp [goSplit]
  | cons c rest =>
    by_cases h : c = sep
    · simp [goSplit, h]
    · simp only [goSplit, if_neg h]
      cases goSplit sep rest <;> simp

theorem goSplit_length (sep : Char) (s : List Char) :
    (goSplit sep s).length = s.count sep + 1 := by
  induction s with
  | nil => simp [goSplit]
  | cons c rest ih =>
    by_cases h : c = sep
    · simp [goSplit, h, List.count_cons, ih]
    · simp only [goSplit, if_neg h]
      have hne := goSplit_ne_nil sep rest
      cases hg : goSplit sep rest with
      | nil => exact absurd hg hne
      | cons a t =>
        have : (a :: t).length = rest.count sep + 1 := hg ▸ ih
        simp only [List.length_cons] at this ⊢
        have hcs : ¬(sep = c) := fun he => h he.symm
        have hcc : (c :: rest).count sep = rest.count sep := by
          simp [List.count_cons, hcs]
        omega

theorem goSplit_of_not_mem (sep : Char) (s : List Char) (h : sep ∉ s) :
    goSplit sep s = [s] := by
  induction s with
  | nil => rfl
  | cons c rest ih =>
    have hc : c ≠ sep := fun he => h (he ▸ List.mem_cons_self c rest)
    have hr : sep ∉ rest := fun hm => h (List.mem_cons_of_mem c hm)
    simp [goSplit, hc, ih hr]

theorem goSplit_append (sep : Char) (xs ys : List Char) (h : sep ∉ xs) :
    goSplit sep (xs ++ sep :: ys) = xs :: goSplit sep ys := by
  induction xs with
  | nil => simp [goSplit]
  | cons c rest ih =>
    have hc : c ≠ sep := fun he => h (he ▸ List.mem_cons_self c rest)
    have hr : sep ∉ rest := fun hm => h (List.mem_cons_of_mem c hm)
    simp only [List.cons_append, goSplit, if_neg hc]
    show (match goSplit sep (rest ++ sep :: ys) with
          | [] => [[c]]
          | h :: t => (c :: h) :: t) = (c :: rest) :: goSplit sep ys
    rw [ih hr]

theorem lookup_filter_of_keeps {p : String × String → Bool} (k : String)
    (m : List (String × String)) (hp : ∀ v, p (k, v) = true) :
    (m.filter p).lookup k = m.lookup k := by
  induction m with
  | nil => rfl
  | cons a t ih =>
    rcases a with ⟨ka, va⟩
    cases hke : (k == ka) with
    | true =>
      have hkk : k = ka := eq_of_beq hke
      have : p (ka, va) = true := hkk ▸ hp va
      simp [List.filter, this, List.lookup, hke]
    | false =>
      cases hpa : p (ka, va) with
      | true => simp [List.filter, hpa, List.lookup, hke, ih]
      | false => simp [List.filter, hpa, List.lookup, hke, ih]

theorem lookup_isSome_iff_mem_keys (k : String) (l : List (String × String)) :
    (l.lookup k).isSome ↔ k ∈ l.map Prod.fst := by
  induction l with
  | nil => simp
  | cons a t ih =>
    rcases a with ⟨ka, va⟩
    cases hke : (k == ka) with
    | true =>
      have hkk : k = ka := eq_of_beq hke
      simp [List.lookup, hke, hkk]
    | false =>
      have hkk : ¬(k = ka) := fun he => by simp [he] at hke
      simp [List.lookup, hke, ih, hkk]

/-! ## Claim theorems -/

/-- Claim C10: `ExpandStringSlice` returns a slice of the same length in
which element `i` is `""` when input element `i` is `nil` and otherwise is
the string value of input element `i`; it never fails on `nil` elements. -/
theorem expandStringSlice_spec (s : List (Option String)) :
    (ExpandStringSlice s).length = s.length ∧
    ∀ i : Nat, (ExpandStringSlice s)[i]? = (s[i]?).map (fun v => v.getD "") := by
  induction s with
  | nil => exact ⟨rfl, fun _ => rfl⟩
  | cons h t ih =>
    refine ⟨?_, ?_⟩
    · cases h <;> simp [ExpandStringSlice, ih.1]
    · intro i
      cases h <;> cases i <;>
        simp [ExpandStringSlice, List.getElem?_cons_succ] <;> exact ih.2 _

/-- Claim C8: for metadata whose namespace and name contain no `'/'`,
`IdParts (BuildId meta)` recovers the namespace and name without error; and
`IdParts id` errors exactly when `id` does not consist of exactly two
`'/'`-separated parts (i.e. when the number of `'/'` in `id` is not one). -/
theorem idParts_buildId_spec :
    (∀ meta : ObjectMeta, ('/' ∉ meta.namespace_.toList) → ('/' ∉ meta.name.toList) →
        IdParts (BuildId meta) = .ok (meta.namespace_, meta.name))
  ∧ (∀ id : String, (∃ e, IdParts id = .error e) ↔ id.toList.count '/' ≠ 1) := by
  constructor
  · intro meta hns hn
    have hdata : (BuildId meta).data =
        meta.namespace_.data ++ '/' :: meta.name.data := by
      simp [BuildId]
    have hns2 : '/' ∉ meta.namespace_.data := hns
    have hn2 : '/' ∉ meta.name.data := hn
    have hsplit : goSplit '/' (BuildId meta).data =
        [meta.namespace_.data, meta.name.data] := by
      rw [hdata, goSplit_append '/' _ _ hns2, goSplit_of_not_mem '/' _ hn2]
    simp [IdParts, hsplit]
  · intro id
    have hlen : (goSplit '/' id.data).length = List.count '/' id.data + 1 :=
      goSplit_length '/' id.data
    constructor
    · rintro ⟨e, he⟩ hcount
      have hcount2 : List.count '/' id.data = 1 := hcount
      cases hg : goSplit '/' id.data with
      | nil => exact goSplit_ne_nil '/' id.data hg
      | cons a t =>
        cases t with
        | nil =>
          rw [hg] at hlen
          simp only [List.length_cons, List.length_nil] at hlen
          omega
        | cons b t2 =>
          cases t2 with
          | nil => simp [IdParts, hg] at he
          | cons c t3 =>
            rw [hg] at hlen
            simp only [List.length_cons] at hlen
            omega
    · intro hcount
      have hcount2 : List.count '/' id.data ≠ 1 := hcount
      cases hg : goSplit '/' id.data with
      | nil => exact absurd hg (goSplit_ne_nil '/' id.data)
      | cons a t =>
        cases t with
        | nil =>
          exact ⟨"Unexpected ID format (" ++ id ++ "), expected namespace/name.",
            by simp [IdParts, hg]⟩
        | cons b t2 =>
          cases t2 with
          | nil =>
            exfalso
            rw [hg] at hlen
            simp only [List.length_cons, List.length_nil] at hlen
            omega
          | cons c t3 =>
            exact ⟨"Unexpected ID format (" ++ id ++ "), expected namespace/name.",
              by simp [IdParts, hg]⟩

/-- Claim C6: the retry closure of the default-service-account create
classifies a failed Get as retryable exactly when the error is NotFound,
classifies every other Get error as non-retryable (ending the loop), and a
successful Get ends the loop without error. -/
theorem defaultServiceAccountRetry_classification (r : Except K8sError Unit) :
    ((∃ e, defaultServiceAccountCreateRetryFn r = .retryable e) ↔
      ∃ e, r = .error e ∧ e.notFound = true)
  ∧ ((∃ e, defaultServiceAccountCreateRetryFn r = .nonRetryable e) ↔
      ∃ e, r = .error e ∧ e.notFound = false)
  ∧ (defaultServiceAccountCreateRetryFn r = .done ↔ r = .ok ()) := by
  rcases r with e | u
  · rcases e with ⟨nf⟩
    cases nf <;> simp [defaultServiceAccountCreateRetryFn]
  · cases u
    simp [defaultServiceAccountCreateRetryFn]

/-- Claim C7: `dataSourceKubernetesNamespaceRead` returns non-empty error
diagnostics exactly when obtaining the clientset, the namespace Get, or one
of the two Set calls fails, and nil diagnostics otherwise; whenever the
clientset is obtained the resource ID is set to the metadata name before the
Get, so it is set even when the Get fails. -/
theorem namespaceRead_diags_and_id (env : NamespaceReadEnv) (md : List MetadataInput) :
    ((dataSourceKubernetesNamespaceRead env md).diags ≠ none ↔
      ((∃ e, env.mainClientset = .error e) ∨ (∃ e, env.getNamespace = .error e) ∨
       env.setMetadataErr ≠ none ∨ env.setSpecErr ≠ none))
  ∧ (∀ u, env.mainClientset = .ok u →
      (dataSourceKubernetesNamespaceRead env md).id = some (ExpandMetadata md).name) := by
  rcases env with ⟨cs, g, s1, s2⟩
  rcases cs with e | u <;> rcases g with e2 | ns <;>
    rcases s1 with _ | e3 <;> rcases s2 with _ | e4 <;>
      simp [dataSourceKubernetesNamespaceRead]

/-- Claim C1: the annotations map returned by `FlattenMetadata` contains no
internal key that the user did not configure; the same holds for labels. -/
theorem flattenMetadata_no_internal_keys (ms : String → String → Bool)
    (meta : ObjectMeta) (ca cl : List String)
    (ia il : Option (List (Option String))) :
    (∀ k, IsInternalKey k = true → IsKeyInMap k ca = false →
        k ∉ (FlattenMetadata ms meta ca cl ia il).annotations.map Prod.fst)
  ∧ (∀ k, IsInternalKey k = true → IsKeyInMap k cl = false →
        k ∉ (FlattenMetadata ms meta ca cl ia il).labels.map Prod.fst) := by
  constructor <;>
  · intro k hint hcfg hmem
    simp only [FlattenMetadata, removeKeys, removeInternalKeys, List.map_map,
      List.mem_map, List.mem_filter] at hmem
    obtain ⟨kv, ⟨⟨_, hkeep⟩, _⟩, hfst⟩ := hmem
    rw [hfst] at hkeep
    simp [hint, hcfg] at hkeep

/-- Claim C4: any key matching at least one `ignore_annotations` expression
and not configured by the user is absent from the annotations map returned
by `FlattenMetadata`; the same holds for labels and `ignore_labels`.
`ms e k` is the abstracted `regexp.MatchString e k`. -/
theorem flattenMetadata_ignored_keys_removed (ms : String → String → Bool)
    (meta : ObjectMeta) (ca cl : List String)
    (ia il : Option (List (Option String))) :
    (∀ k e, e ∈ ignoreListOf ia → ms e k = true → IsKeyInMap k ca = false →
        k ∉ (FlattenMetadata ms meta ca cl ia il).annotations.map Prod.fst)
  ∧ (∀ k e, e ∈ ignoreListOf il → ms e k = true → IsKeyInMap k cl = false →
        k ∉ (FlattenMetadata ms meta ca cl ia il).labels.map Prod.fst) := by
  constructor <;>
  · intro k e hmem hms hcfg hk
    simp only [FlattenMetadata, removeKeys, List.mem_map, List.mem_filter] at hk
    obtain ⟨kv, ⟨_, hkeep⟩, hfst⟩ := hk
    rw [hfst] at hkeep
    simp [ignoreKey, hcfg] at hkeep
    exact absurd (hkeep e hmem) (by simp [hms])

/-- Claim C5: the filtering only deletes keys the user did not configure:
every key of the user-configured map keeps its original value through
`removeInternalKeys` followed by `removeKeys`, whether or not it is internal
or matches an ignore expression. -/
theorem removeKeys_preserves_configured (ms : String → String → Bool)
    (m : List (String × String)) (d : List String) (ignore : List String)
    (k : String) (h : IsKeyInMap k d = true) :
    (removeKeys ms (removeInternalKeys m d) d ignore).lookup k = m.lookup k
  ∧ (k ∈ m.map Prod.fst →
      k ∈ (removeKeys ms (removeInternalKeys m d) d ignore).map Prod.fst) := by
  have hp1 : ∀ v : String,
      (!(IsInternalKey k && !IsKeyInMap k d)) = true := by
    intro v; simp [h]
  have hp2 : ∀ v : String,
      (!(ignoreKey ms k ignore && !IsKeyInMap k d)) = true := by
    intro v; simp [h]
  have hl1 : (removeInternalKeys m d).lookup k = m.lookup k :=
    lookup_filter_of_keeps k m (fun v => hp1 v)
  have hl2 : (removeKeys ms (removeInternalKeys m d) d ignore).lookup k =
      (removeInternalKeys m d).lookup k :=
    lookup_filter_of_keeps k (removeInternalKeys m d) (fun v => hp2 v)
  refine ⟨hl2.trans hl1, ?_⟩
  intro hmem
  rw [← lookup_isSome_iff_mem_keys] at hmem ⊢
  rw [hl2, hl1]
  exact hmem

/-- Claim C2: `IsInternalKey` is `false` when the key parses as a URL-like
key with hostname exactly `app.kubernetes.io` or `service.beta.kubernetes.io`;
for any other parsed hostname it is `true` when the hostname ends in
`kubernetes.io`, and otherwise it is exactly the check that the key contains
`deprecated.daemonset.template.generation`; a key that does not parse is not
internal. -/
theorem isInternalKey_hostname_cases (k : String) :
    (goUrlParseHostname ('/' :: '/' :: k.toList) = none → IsInternalKey k = false)
  ∧ ∀ h, goUrlParseHostname ('/' :: '/' :: k.toList) = some h →
      (((h = "app.kubernetes.io".toList ∨ h = "service.beta.kubernetes.io".toList) →
          IsInternalKey k = false)
      ∧ (h ≠ "app.kubernetes.io".toList → h ≠ "service.beta.kubernetes.io".toList →
          goHasSuffix h "kubernetes.io".toList = true → IsInternalKey k = true)
      ∧ (h ≠ "app.kubernetes.io".toList → h ≠ "service.beta.kubernetes.io".toList →
          goHasSuffix h "kubernetes.io".toList = false →
          IsInternalKey k =
            goContains k.toList "deprecated.daemonset.template.generation".toList)) := by
  constructor
  · intro hn
    unfold IsInternalKey
    rw [hn]
  · intro h hh
    have hkey : IsInternalKey k =
        (if h = "app.kubernetes.io".toList then false
         else if h = "service.beta.kubernetes.io".toList then false
         else if goHasSuffix h "kubernetes.io".toList then true
         else goContains k.toList
           "deprecated.daemonset.template.generation".toList) := by
      unfold IsInternalKey
      rw [hh]
    refine ⟨?_, ?_, ?_⟩
    · rintro (h1 | h1)
      · rw [hkey, if_pos h1]
      · have hA : h ≠ "app.kubernetes.io".toList := by
          rw [h1]; decide
        rw [hkey, if_neg hA, if_pos h1]
    · intro h1 h2 hsuf
      rw [hkey, if_neg h1, if_neg h2, if_pos hsuf]
    · intro h1 h2 hsuf
      have hsuf2 : ¬(goHasSuffix h "kubernetes.io".toList = true) := fun hc => by
        rw [hc] at hsuf
        exact Bool.noConfusion hsuf
      rw [hkey, if_neg h1, if_neg h2, if_neg hsuf2]

theorem expandTerm_of_flattenTerm (t : NodeSelectorTerm) :
    expandNodeSelectorTerm [(flattenNodeSelectorTerm t).headD GoVal.vnil] =
      some {} := by
  by_cases h1 : t.matchExpressions.length > 0 <;>
    by_cases h2 : t.matchFields.length > 0 <;>
      simp [flattenNodeSelectorTerm, expandNodeSelectorTerm, h1, h2, List.lookup]

theorem mapM_expand_flatten (ts : List NodeSelectorTerm) :
    (flattenNodeSelectorTerms ts).mapM (fun n => expandNodeSelectorTerm [n]) =
      some (List.replicate ts.length ({} : NodeSelectorTerm)) := by
  induction ts with
  | nil => rfl
  | cons t ts2 ih =>
    simp only [flattenNodeSelectorTerms, List.map_cons, List.mapM_cons] at ih ⊢
    rw [expandTerm_of_flattenTerm t, ih]
    rfl

/-- Claim C3 (corrected): expanding the flattened node selector terms yields
a list of the same length in which every term is empty (both
`match_expressions` and `match_fields` are dropped), because the flatten
side stores `[]map[string]interface{}` values while the expand side asserts
`[]interface{}`; the round trip therefore equals the input exactly when
every input term is empty. -/
theorem expand_flatten_nodeSelectorTerms_amended (ts : List NodeSelectorTerm) :
    expandNodeSelectorTerms (flattenNodeSelectorTerms ts) =
      some (List.replicate ts.length ({} : NodeSelectorTerm)) := by
  cases ts with
  | nil => rfl
  | cons t ts2 =>
    have h := mapM_expand_flatten (t :: ts2)
    exact h

/-- Claim C3, the claim as stated is false: a single term with one match
expression does not survive the round trip. -/
theorem expand_flatten_nodeSelectorTerms_counterexample :
    expandNodeSelectorTerms (flattenNodeSelectorTerms
      [{ matchExpressions := [{ key := "k", operator := "In", values := ["v"] }],
         matchFields := [] }]) ≠
    some [{ matchExpressions := [{ key := "k", operator := "In", values := ["v"] }],
            matchFields := [] }] := by
  decide

theorem expandLimitRangeItem_error_of_pod_dr (pq : String → Option Quantity)
    (i : Nat) (it : LimitItemInput) (drm : List (String × ResourceVal))
    (ht : it.type_.getD "" = "Pod") (hdr : it.default_request = some drm)
    (hne : drm ≠ []) :
    expandLimitRangeItem pq true i it =
      .error ("limit." ++ toString i ++
        ".default_request cannot be set for Pod limit") := by
  have hlen : drm.length > 0 := List.length_pos.mpr hne
  simp [expandLimitRangeItem, ht, hdr, hlen]

theorem expandLimitRangeItems_error_of_bad (pq : String → Option Quantity)
    (items : List LimitItemInput)
    (hex : ∃ it ∈ items, it.type_.getD "" = "Pod" ∧
      ∃ drm, it.default_request = some drm ∧ drm ≠ []) :
    ∀ i, ∃ e, expandLimitRangeItems pq true i items = .error e := by
  induction items with
  | nil => simp at hex
  | cons l rest ih =>
    intro i
    rcases hex with ⟨it, hmem, ht, drm, hdr, hne⟩
    rcases List.mem_cons.mp hmem with he | hrest
    · subst he
      refine ⟨"limit." ++ toString i ++
        ".default_request cannot be set for Pod limit", ?_⟩
      simp [expandLimitRangeItems,
        expandLimitRangeItem_error_of_pod_dr pq i it drm ht hdr hne]
    · cases hl : expandLimitRangeItem pq true i l with
      | error e => exact ⟨e, by simp [expandLimitRangeItems, hl]⟩
      | ok item =>
        obtain ⟨e, he⟩ := ih ⟨it, hrest, ht, drm, hdr, hne⟩ (i + 1)
        exact ⟨e, by simp [expandLimitRangeItems, hl, he]⟩

theorem expandLimitRangeItem_ok_spec (pq : String → Option Quantity)
    (i : Nat) (it : LimitItemInput) (o : LimitRangeItem)
    (h : expandLimitRangeItem pq false i it = .ok o) :
    limitItemSpec pq it o := by
  unfold expandLimitRangeItem at h
  rcases h1 : (match it.default_request with
      | some drm =>
        if it.type_.getD "" = "Pod" && drm.length > 0 then
          if false then
            Except.error ("limit." ++ toString i ++
              ".default_request cannot be set for Pod limit")
          else .ok []
        else ExpandMapToResourceList pq drm
      | none => (.ok [] : Except String (List (String × Quantity)))) with e | dr <;>
    rw [h1] at h
  · exact absurd h (by simp)
  rcases h2 : (match it.default_ with
      | some m => ExpandMapToResourceList pq m
      | none => (.ok [] : Except String (List (String × Quantity)))) with e | df <;>
    rw [h2] at h
  · exact absurd h (by simp)
  rcases h3 : (match it.max with
      | some m => ExpandMapToResourceList pq m
      | none => (.ok [] : Except String (List (String × Quantity)))) with e | mx <;>
    rw [h3] at h
  · exact absurd h (by simp)
  rcases h4 : (match it.maxLimitRequestRatio with
      | some m => ExpandMapToResourceList pq m
      | none => (.ok [] : Except String (List (String × Quantity)))) with e | rt <;>
    rw [h4] at h
  · exact absurd h (by simp)
  rcases h5 : (match it.min with
      | some m => ExpandMapToResourceList pq m
      | none => (.ok [] : Except String (List (String × Quantity)))) with e | mn <;>
    rw [h5] at h
  · exact absurd h (by simp)
  have ho : o = LimitRangeItem.mk (it.type_.getD "") df dr mx rt mn := by
    injection h with h'
    exact h'.symm
  subst ho
  refine ⟨?_, ?_, ?_, ?_, ?_⟩
  · intro ht drm hdrm hne
    have hlen : 0 < drm.length := List.length_pos.mpr hne
    rw [hdrm] at h1
    simp [ht, hlen] at h1
    simp_all
  · intro dm hdm
    rw [hdm] at h2
    simpa using h2
  · intro dm hdm
    rw [hdm] at h3
    simpa using h3
  · intro dm hdm
    rw [hdm] at h4
    simpa using h4
  · intro dm hdm
    rw [hdm] at h5
    simpa using h5

theorem expandLimitRangeItems_ok_spec (pq : String → Option Quantity)
    (items : List LimitItemInput) :
    ∀ i res, expandLimitRangeItems pq false i items = .ok res →
      res.length = items.length ∧
      ∀ (j : Nat) it o, items[j]? = some it → res[j]? = some o →
        limitItemSpec pq it o := by
  induction items with
  | nil =>
    intro i res h
    have hres : res = [] := by simpa [expandLimitRangeItems] using h.symm
    subst hres
    exact ⟨rfl, by intro j it o h1 h2; simp at h1⟩
  | cons l rest ih =>
    intro i res h
    unfold expandLimitRangeItems at h
    rcases hl : expandLimitRangeItem pq false i l with e | item <;> rw [hl] at h
    · exact absurd h (by simp)
    rcases hr : expandLimitRangeItems pq false (i + 1) rest with e | items2 <;>
      rw [hr] at h
    · exact absurd h (by simp)
    have hres : res = item :: items2 := by simpa using h.symm
    subst hres
    obtain ⟨hlen, hspec⟩ := ih (i + 1) items2 hr
    refine ⟨by simp [hlen], ?_⟩
    intro j it o h1 h2
    cases j with
    | zero =>
      simp at h1 h2
      subst h1
      subst h2
      exact expandLimitRangeItem_ok_spec pq i _ _ hl
    | succ j2 =>
      simp at h1 h2
      exact hspec j2 it o h1 h2

/-- Claim C9: `ExpandLimitRangeSpec` returns an error when `isNew` is true
and some limit entry of type `Pod` has a non-empty `default_request` map;
when `isNew` is false such a `default_request` is silently dropped
(`DefaultRequest` left unset) instead of expanded, while `default`, `max`,
`min` and `max_limit_request_ratio` are expanded for every entry. -/
theorem expandLimitRangeSpec_pod_default_request (pq : String → Option Quantity)
    (m : LimitRangeSpecInput) (rest : List (Option LimitRangeSpecInput))
    (items : List LimitItemInput) (hm : m.limit = some items) :
    ((∃ it ∈ items, it.type_.getD "" = "Pod" ∧
        ∃ drm, it.default_request = some drm ∧ drm ≠ []) →
      ∃ e, ExpandLimitRangeSpec pq (some m :: rest) true = .error e)
  ∧ (∀ out, ExpandLimitRangeSpec pq (some m :: rest) false = .ok out →
      out.limits.length = items.length ∧
      ∀ (j : Nat) it o, items[j]? = some it → out.limits[j]? = some o →
        limitItemSpec pq it o) := by
  constructor
  · intro hex
    obtain ⟨e, he⟩ := expandLimitRangeItems_error_of_bad pq items hex 0
    exact ⟨e, by simp [ExpandLimitRangeSpec, hm, he]⟩
  · intro out hout
    simp only [ExpandLimitRangeSpec, hm] at hout
    rcases hx : expandLimitRangeItems pq false 0 items with e | its <;>
      rw [hx] at hout
    · exact absurd hout (by simp)
    have hres : out = { limits := its } := by simpa using hout.symm
    subst hres
    exact expandLimitRangeItems_ok_spec pq items 0 its hx

/-! ## Witnesses -/

/-- Witness for C1 at a concrete internal, unconfigured annotation key. -/
theorem flattenMetadata_no_internal_keys_witness :
    "kubernetes.io/foo" ∉ (FlattenMetadata (fun _ _ => false)
      { annotations := [("kubernetes.io/foo", "1")] } [] [] none
      none).annotations.map Prod.fst :=
  (flattenMetadata_no_internal_keys (fun _ _ => false)
    { annotations := [("kubernetes.io/foo", "1")] } [] [] none none).1
    "kubernetes.io/foo" (by decide) (by decide)

/-- Witness for C2 at a key whose hostname is `app.kubernetes.io`. -/
theorem isInternalKey_hostname_cases_witness :
    IsInternalKey "app.kubernetes.io/name" = false :=
  (((isInternalKey_hostname_cases "app.kubernetes.io/name").2
      "app.kubernetes.io".toList (by decide)).1) (Or.inl rfl)

/-- Witness for C4 at a key matched by an ignore expression. -/
theorem flattenMetadata_ignored_keys_removed_witness :
    "boring" ∉ (FlattenMetadata (fun _ _ => true)
      { annotations := [("boring", "1")] } [] [] (some [some "x"])
      none).annotations.map Prod.fst :=
  (flattenMetadata_ignored_keys_removed (fun _ _ => true)
    { annotations := [("boring", "1")] } [] [] (some [some "x"]) none).1
    "boring" "x" (by decide) rfl (by decide)

/-- Witness for C5 at a configured internal key that also matches the ignore
expressions. -/
theorem removeKeys_preserves_configured_witness :
    (removeKeys (fun _ _ => true)
        (removeInternalKeys [("kubernetes.io/a", "v")] ["kubernetes.io/a"])
        ["kubernetes.io/a"] ["p"]).lookup "kubernetes.io/a" =
      ([("kubernetes.io/a", "v")] : List (String × String)).lookup "kubernetes.io/a"
  ∧ ("kubernetes.io/a" ∈
        ([("kubernetes.io/a", "v")] : List (String × String)).map Prod.fst →
      "kubernetes.io/a" ∈ (removeKeys (fun _ _ => true)
        (removeInternalKeys [("kubernetes.io/a", "v")] ["kubernetes.io/a"])
        ["kubernetes.io/a"] ["p"]).map Prod.fst) :=
  removeKeys_preserves_configured (fun _ _ => true) [("kubernetes.io/a", "v")]
    ["kubernetes.io/a"] ["p"] "kubernetes.io/a" (by decide)

/-- Witness for C6 at a NotFound Get error. -/
theorem defaultServiceAccountRetry_classification_witness :
    ∃ e, defaultServiceAccountCreateRetryFn (.error ⟨true⟩) =
      .retryable e :=
  (defaultServiceAccountRetry_classification (.error ⟨true⟩)).1.mpr
    ⟨⟨true⟩, rfl, rfl⟩

/-- Witness for C7: the ID is set even though the Get fails. -/
theorem namespaceRead_diags_and_id_witness :
    (dataSourceKubernetesNamespaceRead
      { mainClientset := .ok (), getNamespace := .error "boom",
        setMetadataErr := none, setSpecErr := none }
      [{ name := some "ns1" }]).id = some "ns1" :=
  (namespaceRead_diags_and_id
    { mainClientset := .ok (), getNamespace := .error "boom",
      setMetadataErr := none, setSpecErr := none }
    [{ name := some "ns1" }]).2 () rfl

/-- Witness for C8 at a concrete namespaced name. -/
theorem idParts_buildId_witness :
    IdParts (BuildId { namespace_ := "ns", name := "nm" }) = .ok ("ns", "nm") :=
  idParts_buildId_spec.1 { namespace_ := "ns", name := "nm" }
    (by decide) (by decide)

/-- Witness for C9: a new `Pod` limit with a non-empty `default_request`
is rejected. -/
theorem expandLimitRangeSpec_pod_default_request_witness :
    ∃ e, ExpandLimitRangeSpec (fun s => some (.parsed s))
      [some { limit := some [{ type_ := some "Pod",
                               default_request := some [("cpu", .str "100m")] }] }]
      true = .error e :=
  (expandLimitRangeSpec_pod_default_request (fun s => some (.parsed s))
    { limit := some [{ type_ := some "Pod",
                       default_request := some [("cpu", .str "100m")] }] } []
    [{ type_ := some "Pod",
       default_request := some [("cpu", .str "100m")] }] rfl).1
    ⟨{ type_ := some "Pod",
       default_request := some [("cpu", .str "100m")] },
      by simp, rfl, [("cpu", .str "100m")], rfl, by decide⟩

end TPK
